import Mathlib

/-!
# Impeller plugin: command construction and installation orchestration

A shallow embedding of `plugin.go`.  Subprocesses, the file system and the
log are made explicit: every function that has an effect takes the trace of
events so far and returns its result together with the extended trace.  The
outcome of a subprocess and the answer of `os.Stat` are given by a `World`
whose answers may depend on everything that happened before.
-/

namespace Impeller

/-! ## Data model -/

/-- Kind tag of a command-line argument (`commandbuilder.ArgType*`). -/
inductive ArgType where
  | ArgTypeRaw
  | ArgTypeShortParam
  | ArgTypeLongParam
  deriving DecidableEq, Repr

/-- One subprocess argument (`commandbuilder.Arg`).  The zero values of Go
(`""`, `false`) are the defaults of the omitted fields; `Typ` is the field
`Type`, a reserved word here. -/
structure Arg where
  Typ : ArgType
  Name : String := ""
  Value : String
  ValueSecret : Bool := false
  deriving DecidableEq, Repr

/-- An `exec.Cmd` ready to run: program, argument list and optional standard
input.  `exec.Command(bin, "a", "b")` is the command whose arguments are the
raw tokens `a`, `b`. -/
structure Command where
  Name : String
  Args : List Arg
  Stdin : Option String := none
  deriving DecidableEq, Repr

/-- Observable events of a run, in the order they happen. -/
inductive Event where
  /-- `log.Println(parts...)`: the operands, which Go prints separated by blanks. -/
  | log (parts : List String)
  /-- `fmt.Printf` to standard output, already formatted. -/
  | print (text : String)
  /-- `ioutil.WriteFile(path, data, 0644)`. -/
  | writeFile (path : String) (data : String)
  /-- One subprocess spawned. -/
  | exec (cmd : Command)
  deriving DecidableEq, Repr

abbrev Trace := List Event

/-- A Go `error` value: `none` is `nil`, `some msg` an error with that message. -/
abbrev Err := Option String

/-- Modelled from the spec: a resolvable secret of package `types` (not among
the sources), "a reference that yields a plaintext value only at resolution
time (may fail)".  `GetValue` is what its `GetValue()` method returns. -/
structure Resolvable where
  GetValue : Except String String

/-- Modelled from the spec: `types.Override`, `{target, resolvable value}`. -/
structure Override where
  Target : String
  GetValue : Except String String

/-- Modelled from the spec: `types.HelmRepo`; a `nil` credential is `none`. -/
structure HelmRepo where
  Name : String
  URL : String
  Username : Option Resolvable := none
  Password : Option Resolvable := none

/-- Modelled from the spec: `types.Release`, with the fields `plugin.go` reads. -/
structure Release where
  Name : String
  ChartPath : String := ""
  Version : String := ""
  Namespace : String := ""
  DeploymentMethod : String := ""
  ValueFiles : List String := []
  Overrides : List Override := []

/-- Modelled from the spec: the `Helm` part of `types.ClusterConfig`. -/
structure HelmConfig where
  Repos : List HelmRepo := []
  Debug : Bool := false
  LogLevel : Int := 0

/-- Modelled from the spec: `types.ClusterConfig`, with the fields
`plugin.go` reads on the paths modelled here. -/
structure ClusterConfig where
  Name : String := ""
  Helm : HelmConfig := {}
  Releases : List Release := []

/-- The `Plugin` struct of `plugin.go`. -/
structure Plugin where
  ClusterConfig : ClusterConfig := {}
  ValueFiles : List String := []
  KubeConfig : String := ""
  KubeContext : String := ""
  Dryrun : Bool := false

/-- Everything outside the program.  `HelmBin` and `KubectlBin` are the
constants of package `constants` (not among the sources), `home` is
`os.Getenv("HOME")`; `exec` is the outcome of spawning a command (its
standard output, or the error), `stat` says whether `os.Stat` returns a nil
error, `write` is the error of `ioutil.WriteFile`.  Each may depend on the
trace so far. -/
structure World where
  HelmBin : String
  KubectlBin : String
  home : String
  exec : Trace → Command → Except String String
  stat : Trace → String → Bool
  write : Trace → String → String → Err

/-! ## Go library functions used by the plugin -/

/-- The predicate `unicode.IsSpace` of Go. -/
def isSpace (c : Char) : Bool :=
  let n := c.toNat
  n == 9 || n == 10 || n == 11 || n == 12 || n == 13 || n == 32 ||
  n == 0x85 || n == 0xA0 || n == 0x1680 || (0x2000 ≤ n && n ≤ 0x200A) ||
  n == 0x2028 || n == 0x2029 || n == 0x202F || n == 0x205F || n == 0x3000

/-- The function `strings.TrimSpace`: the string without leading and trailing
white space. -/
def TrimSpace (s : String) : String :=
  String.mk ((s.data.dropWhile isSpace).reverse.dropWhile isSpace).reverse

/-- The function `filepath.Base` for the separator `/`: the last element of
the path, after removing trailing separators. -/
def Base (path : String) : String :=
  if path = "" then "."
  else
    let stripped := (path.data.reverse.dropWhile (fun c => c == '/'))
    let last := (stripped.takeWhile (fun c => c != '/')).reverse
    if last = [] then "/" else String.mk last

/-- The function `strings.Join`. -/
def Join (elems : List String) (sep : String) : String :=
  sep.intercalate elems

/-! ## Command builder and process runner

Packages `commandbuilder` and `utils` are not among the sources. -/

/-- The builder `commandbuilder.CommandBuilder`: a program name and the
arguments added so far. -/
structure CommandBuilder where
  Name : String
  Args : List Arg := []

/-- Modelled from the spec: `add(arg)` "appends to the pending list (order
preserved)". -/
def CommandBuilder.Add (cb : CommandBuilder) (arg : Arg) : CommandBuilder :=
  { cb with Args := cb.Args ++ [arg] }

/-- Modelled from the spec: `build()` "returns an Invocation bound to a
program name", carrying the arguments in the order they were added. -/
def CommandBuilder.Command (cb : CommandBuilder) : Command :=
  { Name := cb.Name, Args := cb.Args }

/-- Modelled from the spec: `utils.Run(cmd, _)` "spawns exactly one
subprocess", with no retry; exit code 0 is success, anything else the error. -/
def utilsRun (w : World) (cmd : Command) (t : Trace) : Err × Trace :=
  (match w.exec t cmd with
   | .ok _ => none
   | .error e => some e,
   t ++ [Event.exec cmd])

/-- The method `cmd.Output()` of `os/exec`: runs the command once and
returns its standard output. -/
def cmdOutput (w : World) (cmd : Command) (t : Trace) : Except String String × Trace :=
  (w.exec t cmd, t ++ [Event.exec cmd])

/-- Modelled from the spec: `cb.Run()` builds the command and runs it, one
subprocess, no retry. -/
def CommandBuilder.Run (w : World) (cb : CommandBuilder) (t : Trace) : Err × Trace :=
  utilsRun w cb.Command t

/-! ## Override resolution (`Plugin.overrides`) -/

/-- The argument `-f <path>` as `overrides` builds it. -/
def fileArg (path : String) : Arg :=
  { Typ := .ArgTypeShortParam, Name := "f", Value := path }

/-- First loop of `overrides`: the explicit global value files. -/
def overridesGlobal (p : Plugin) (s : List Arg × Trace) : List Arg × Trace :=
  p.ValueFiles.foldl
    (fun s fileName =>
      (s.1 ++ [{ Typ := .ArgTypeShortParam, Name := "f", Value := TrimSpace fileName }],
       s.2 ++ [Event.log ["Adding override file:", fileName]]))
    s

/-- The `values/<release>/default.yaml` step of `overrides`. -/
def overridesDefault (stat : String → Bool) (release : Release)
    (s : List Arg × Trace) : List Arg × Trace :=
  let path := "values/" ++ release.Name ++ "/default.yaml"
  if stat path then
    (s.1 ++ [{ Typ := .ArgTypeShortParam, Name := "f", Value := path }],
     s.2 ++ [Event.log ["Adding override file:", path]])
  else s

/-- Second loop of `overrides`: the value files listed in the release. -/
def overridesRelease (stat : String → Bool) (release : Release)
    (s : List Arg × Trace) : List Arg × Trace :=
  release.ValueFiles.foldl
    (fun s path =>
      if !stat path then
        (s.1, s.2 ++ [Event.log ["WARN: Value file does not exist:", path]])
      else
        (s.1 ++ [{ Typ := .ArgTypeShortParam, Name := "f", Value := path }],
         s.2 ++ [Event.log ["Adding override file:", path]]))
    s

/-- The `values/<release>/<cluster>.yaml` step of `overrides`. -/
def overridesCluster (p : Plugin) (stat : String → Bool) (release : Release)
    (s : List Arg × Trace) : List Arg × Trace :=
  let path := "values/" ++ release.Name ++ "/" ++ p.ClusterConfig.Name ++ ".yaml"
  if p.ClusterConfig.Name != "" && stat path then
    (s.1 ++ [{ Typ := .ArgTypeShortParam, Name := "f", Value := path }],
     s.2 ++ [Event.log ["Adding override file:", path]])
  else s

/-- Third loop of `overrides`: the individual value overrides; the state is
`setValues` and the log. -/
def overridesSetValues (release : Release) (s : List String × Trace) : List String × Trace :=
  release.Overrides.foldl
    (fun s override =>
      let out := s.2 ++ [Event.log ["Overriding value for:", override.Target]]
      match override.GetValue with
      | .error err =>
        (s.1, out ++ [Event.log ["WARNING: Could not get override value. Skipping override:", err]])
      | .ok overrideValue =>
        let out := if overrideValue = "" then
            out ++ [Event.log ["WARNING: Override value is blank."]]
          else out
        (s.1 ++ [override.Target ++ "=" ++ overrideValue], out))
    s

/-- The function `Plugin.overrides`: the arguments it returns and the lines
it logs, for a file system in which `stat path` says whether `path` exists. -/
def overrides (p : Plugin) (stat : String → Bool) (release : Release) : List Arg × Trace :=
  let s := overridesGlobal p ([], [])
  let s := overridesDefault stat release s
  let s := overridesRelease stat release s
  let s := overridesCluster p stat release s
  let sv := overridesSetValues release ([], s.2)
  if sv.1.length > 0 then
    (s.1 ++ [{ Typ := .ArgTypeLongParam, Name := "set", Value := Join sv.1 ",",
               ValueSecret := true }],
     sv.2)
  else (s.1, sv.2)

/-! ## The plugin (`plugin.go`) -/

/-- The constant `kubectlBin` of `plugin.go`. -/
def kubectlBin : String := "kubectl"

/-- The variable `kubeConfig` of `plugin.go`. -/
def kubeConfig (w : World) : String := w.home ++ "/.kube/config"

/-- A raw argument, `commandbuilder.Arg{Type: ArgTypeRaw, Value: v}`. -/
def rawArg (v : String) : Arg := { Typ := .ArgTypeRaw, Value := v }

/-- The function `exec.Command(name, args...)`. -/
def execCommand (name : String) (args : List String) : Command :=
  { Name := name, Args := args.map rawArg }

/-- The method `Plugin.setupKubeconfig`. -/
def setupKubeconfig (p : Plugin) (w : World) (t : Trace) : Err × Trace :=
  let r : Err × Trace :=
    if p.KubeConfig ≠ "" then
      let t := t ++ [Event.log ["Creating Kubernetes config"]]
      match w.write t (kubeConfig w) p.KubeConfig with
      | some err =>
        (some ("Error creating kube config file: " ++ err),
         t ++ [Event.writeFile (kubeConfig w) p.KubeConfig])
      | none => (none, t ++ [Event.writeFile (kubeConfig w) p.KubeConfig])
    else (none, t)
  match r with
  | (some err, t) => (some err, t)
  | (none, t) =>
    if p.KubeContext ≠ "" then
      let t := t ++ [Event.log ["Setting Kubernetes context"]]
      let cmd := execCommand kubectlBin ["config", "use-context", p.KubeContext]
      match utilsRun w cmd t with
      | (some err, t) => (some ("Error setting Kubernetes context: " ++ err), t)
      | (none, t) => (none, t)
    else (none, t)

/-- The method `Plugin.addHelmRepo` (it does not read the plugin). -/
def addHelmRepo (w : World) (repo : HelmRepo) (t : Trace) : Err × Trace :=
  let t := t ++ [Event.log ["Adding Helm repo:", repo.Name]]
  let cb : CommandBuilder := { Name := w.HelmBin }
  let cb := cb.Add { Typ := .ArgTypeRaw, Value := "repo" }
  let cb := cb.Add { Typ := .ArgTypeRaw, Value := "add" }
  let cb := cb.Add { Typ := .ArgTypeRaw, Value := repo.Name }
  let cb := cb.Add { Typ := .ArgTypeRaw, Value := repo.URL }
  let withUsername : Except String CommandBuilder :=
    match repo.Username with
    | none => .ok cb
    | some secret =>
      match secret.GetValue with
      | .error err => .error ("Could not get username for repo: " ++ err)
      | .ok username =>
        .ok (cb.Add { Typ := .ArgTypeLongParam, Name := "username", Value := username,
                      ValueSecret := true })
  match withUsername with
  | .error e => (some e, t)
  | .ok cb =>
    let withPassword : Except String CommandBuilder :=
      match repo.Password with
      | none => .ok cb
      | some secret =>
        match secret.GetValue with
        | .error err => .error ("Could not get password for repo: " ++ err)
        | .ok password =>
          .ok (cb.Add { Typ := .ArgTypeLongParam, Name := "password", Value := password,
                        ValueSecret := true })
    match withPassword with
    | .error e => (some e, t)
    | .ok cb =>
      match cb.Run w t with
      | (some err, t) => (some ("Could not add repo \"" ++ repo.Name ++ "\": " ++ err), t)
      | (none, t) => (none, t)

/-- The method `Plugin.updateHelmRepos`. -/
def updateHelmRepos (w : World) (t : Trace) : Err × Trace :=
  let t := t ++ [Event.log ["Updating Helm repos"]]
  let cmd := execCommand w.HelmBin ["repo", "update"]
  match utilsRun w cmd t with
  | (some err, t) => (some ("Error updating helm repos: " ++ err), t)
  | (none, t) => (none, t)

/-- The loop `for _, override := range p.overrides(release) { cb.Add(override) }`. -/
def addOverrides (cb : CommandBuilder) (args : List Arg) : CommandBuilder :=
  args.foldl (fun cb override => cb.Add override) cb

/-- The method `Plugin.installAddonViaHelm`. -/
def installAddonViaHelm (p : Plugin) (w : World) (release : Release) (t : Trace) :
    Err × Trace :=
  let cb : CommandBuilder := { Name := w.HelmBin }
  let cb := cb.Add { Typ := .ArgTypeRaw, Value := "upgrade" }
  let cb := cb.Add { Typ := .ArgTypeRaw, Value := "--install" }
  let cb := cb.Add { Typ := .ArgTypeRaw, Value := release.Name }
  let cb := cb.Add { Typ := .ArgTypeRaw, Value := release.ChartPath }
  let cb := cb.Add { Typ := .ArgTypeLongParam, Name := "version", Value := release.Version }
  let cb := if p.ClusterConfig.Helm.Debug then
      cb.Add { Typ := .ArgTypeRaw, Value := "--debug" }
    else cb
  let cb := if release.Namespace ≠ "" then
      cb.Add { Typ := .ArgTypeLongParam, Name := "namespace", Value := release.Namespace }
    else cb
  let cb := if p.ClusterConfig.Helm.LogLevel ≠ 0 then
      cb.Add { Typ := .ArgTypeLongParam, Name := "v",
               Value := toString p.ClusterConfig.Helm.LogLevel }
    else cb
  let ov := overrides p (w.stat t) release
  let t := t ++ ov.2
  let cb := addOverrides cb ov.1
  let s : CommandBuilder × Trace :=
    if p.Dryrun then
      (cb.Add { Typ := .ArgTypeRaw, Value := "--dry-run" },
       t ++ [Event.log ["Running Dry run:", release.Name]])
    else (cb, t)
  match s.1.Run w s.2 with
  | (some err, t) => (some ("Error running helm: " ++ err), t)
  | (none, t) => (none, t)

/-- The method `Plugin.fetchChart`. -/
def fetchChart (w : World) (release : Release) (t : Trace) : Err × Trace :=
  let cb : CommandBuilder := { Name := w.HelmBin }
  let cb := cb.Add { Typ := .ArgTypeRaw, Value := "fetch" }
  let cb := cb.Add { Typ := .ArgTypeLongParam, Name := "version", Value := release.Version }
  let cb := cb.Add { Typ := .ArgTypeRaw, Value := "--untar" }
  let cb := cb.Add { Typ := .ArgTypeRaw, Value := release.ChartPath }
  cb.Run w t

/-- The method `Plugin.templateChart`. -/
def templateChart (p : Plugin) (w : World) (release : Release) (t : Trace) :
    Except String String × Trace :=
  let chartDir := Base release.ChartPath
  let cb : CommandBuilder := { Name := w.HelmBin }
  let cb := cb.Add { Typ := .ArgTypeRaw, Value := "template" }
  let cb := if release.Namespace ≠ "" then
      cb.Add { Typ := .ArgTypeLongParam, Name := "namespace", Value := release.Namespace }
    else cb
  let cb := if release.Name ≠ "" then
      cb.Add { Typ := .ArgTypeLongParam, Name := "name", Value := release.Name }
    else cb
  let ov := overrides p (w.stat t) release
  let t := t ++ ov.2
  let cb := addOverrides cb ov.1
  let cb := cb.Add { Typ := .ArgTypeRaw, Value := chartDir }
  let cmd := cb.Command
  match cmdOutput w cmd t with
  | (.error err, t) => (.error err, t)
  | (.ok templateBytes, t) => (.ok templateBytes, t)

/-- The command `kubectl apply --filename -` with the manifests on standard
input, as `installAddonViaKubectl` builds it (for both attempts). -/
def kubectlApplyCmd (w : World) (renderedManifests : String) : Command :=
  let cb : CommandBuilder := { Name := w.KubectlBin }
  let cb := cb.Add { Typ := .ArgTypeRaw, Value := "apply" }
  let cb := cb.Add { Typ := .ArgTypeLongParam, Name := "filename", Value := "-" }
  { cb.Command with Stdin := some renderedManifests }

/-- The method `Plugin.installAddonViaKubectl`. -/
def installAddonViaKubectl (p : Plugin) (w : World) (release : Release) (t : Trace) :
    Err × Trace :=
  match fetchChart w release t with
  | (some err, t) => (some ("error fetching chart for kubectl deployment: " ++ err), t)
  | (none, t) =>
    match templateChart p w release t with
    | (.error err, t) => (some ("error rendering chart for kubectl apply: " ++ err), t)
    | (.ok renderedManifests, t) =>
      if p.Dryrun then
        (none, t ++ [Event.log ["Running Dry run:", release.Name],
                     Event.print ("rendered chart output:\n" ++ renderedManifests)])
      else
        match utilsRun w (kubectlApplyCmd w renderedManifests) t with
        | (some _, t) => utilsRun w (kubectlApplyCmd w renderedManifests) t
        | (none, t) => (none, t)

/-- The method `Plugin.installAddon`. -/
def installAddon (p : Plugin) (w : World) (release : Release) (t : Trace) : Err × Trace :=
  let t := t ++ [Event.log ["Installing addon:", release.Name, "@", release.Version]]
  if release.DeploymentMethod = "kubectl" then installAddonViaKubectl p w release t
  else if release.DeploymentMethod = "helm" then installAddonViaHelm p w release t
  else installAddonViaHelm p w release t

/-- The loop of `Exec` over `p.ClusterConfig.Helm.Repos`. -/
def addRepos (w : World) : List HelmRepo → Trace → Err × Trace
  | [], t => (none, t)
  | repo :: rest, t =>
    match addHelmRepo w repo t with
    | (some err, t) => (some ("Error adding Helm repo: " ++ err), t)
    | (none, t) => addRepos w rest t

/-- The loop of `Exec` over `p.ClusterConfig.Releases`. -/
def installAddons (p : Plugin) (w : World) : List Release → Trace → Err × Trace
  | [], t => (none, t)
  | addon :: rest, t =>
    match installAddon p w addon t with
    | (some err, t) =>
      (some ("Error installing addon \"" ++ addon.Name ++ "\": " ++ err), t)
    | (none, t) => installAddons p w rest t

/-- The method `Plugin.Exec`. -/
def Exec (p : Plugin) (w : World) (t : Trace) : Err × Trace :=
  match setupKubeconfig p w t with
  | (some err, t) => (some ("Error initializing Kubernetes config: " ++ err), t)
  | (none, t) =>
    match addRepos w p.ClusterConfig.Helm.Repos t with
    | (some err, t) => (some err, t)
    | (none, t) =>
      match updateHelmRepos w t with
      | (some err, t) => (some ("Error updating Helm repos: " ++ err), t)
      | (none, t) => installAddons p w p.ClusterConfig.Releases t

/-! ## Vocabulary of the properties -/

/-- The pairs `target=value` of the overrides that resolve, in listed order. -/
def resolvedPairs (os : List Override) : List String :=
  os.filterMap (fun o =>
    match o.GetValue with
    | .ok v => some (o.Target ++ "=" ++ v)
    | .error _ => none)

/-- The messages of the overrides that do not resolve, in listed order. -/
def resolveErrors (os : List Override) : List String :=
  os.filterMap (fun o =>
    match o.GetValue with
    | .ok _ => none
    | .error e => some e)

/-- The argument `--set <value>`, marked secret. -/
def setArg (value : String) : Arg :=
  { Typ := .ArgTypeLongParam, Name := "set", Value := value, ValueSecret := true }

/-- An argument of the form `-f <path>`. -/
def isFileArg (a : Arg) : Bool := a.Typ == .ArgTypeShortParam && a.Name == "f"

/-- An argument of the form `--set <value>`. -/
def isSetArg (a : Arg) : Bool := a.Typ == .ArgTypeLongParam && a.Name == "set"

/-- The warning logged for a missing value file. -/
def isValueFileWarning : Event → Bool
  | .log (m :: _) => m == "WARN: Value file does not exist:"
  | _ => false

/-- The warning logged for an override that does not resolve. -/
def isSkipWarning : Event → Bool
  | .log (m :: _) => m == "WARNING: Could not get override value. Skipping override:"
  | _ => false

/-- The warning logged for an override that resolves to the empty string. -/
def isBlankWarning : Event → Bool
  | .log (m :: _) => m == "WARNING: Override value is blank."
  | _ => false

/-- The `-f` arguments of the release: default file, listed files, cluster
file, each only when present. -/
def releaseFileArgs (p : Plugin) (stat : String → Bool) (release : Release) : List Arg :=
  (if stat ("values/" ++ release.Name ++ "/default.yaml") then
      [fileArg ("values/" ++ release.Name ++ "/default.yaml")] else []) ++
  (release.ValueFiles.filter stat).map fileArg ++
  (if p.ClusterConfig.Name ≠ "" ∧
      stat ("values/" ++ release.Name ++ "/" ++ p.ClusterConfig.Name ++ ".yaml") then
      [fileArg ("values/" ++ release.Name ++ "/" ++ p.ClusterConfig.Name ++ ".yaml")] else [])

/-- The lines the third loop logs for one override. -/
def overrideLog (o : Override) : List Event :=
  Event.log ["Overriding value for:", o.Target] ::
    (match o.GetValue with
     | .error err =>
       [Event.log ["WARNING: Could not get override value. Skipping override:", err]]
     | .ok v => if v = "" then [Event.log ["WARNING: Override value is blank."]] else [])

/-- The lines `overrides` logs for the release's files: default file, listed
files, cluster file. -/
def releaseFileLog (p : Plugin) (stat : String → Bool) (release : Release) : List Event :=
  (if stat ("values/" ++ release.Name ++ "/default.yaml") then
      [Event.log ["Adding override file:", "values/" ++ release.Name ++ "/default.yaml"]]
    else []) ++
  release.ValueFiles.map (fun path =>
    if stat path then Event.log ["Adding override file:", path]
    else Event.log ["WARN: Value file does not exist:", path]) ++
  (if p.ClusterConfig.Name ≠ "" ∧
      stat ("values/" ++ release.Name ++ "/" ++ p.ClusterConfig.Name ++ ".yaml") then
      [Event.log ["Adding override file:",
        "values/" ++ release.Name ++ "/" ++ p.ClusterConfig.Name ++ ".yaml"]]
    else [])

/-- The events a call appended to the trace `t` it started from. -/
def emitted {α : Type} (t : Trace) (r : α × Trace) : Trace := r.2.drop t.length

/-- A subprocess event. -/
def isExec : Event → Bool
  | .exec _ => true
  | _ => false

/-- A subprocess whose arguments begin `upgrade --install`, whatever the
program. -/
def isUpgradeInstall : Event → Bool
  | .exec cmd => cmd.Args.take 2 == [rawArg "upgrade", rawArg "--install"]
  | _ => false

/-- A subprocess whose first argument is `fetch`, whatever the program. -/
def isFetch : Event → Bool
  | .exec cmd => cmd.Args.take 1 == [rawArg "fetch"]
  | _ => false

/-- A subprocess whose first argument is `template`, whatever the program. -/
def isTemplate : Event → Bool
  | .exec cmd => cmd.Args.take 1 == [rawArg "template"]
  | _ => false

/-- A subprocess whose first argument is `apply`, whatever the program. -/
def isApply : Event → Bool
  | .exec cmd => cmd.Args.take 1 == [rawArg "apply"]
  | _ => false

/-- A subprocess whose arguments begin `repo add`, whatever the program. -/
def isRepoAdd : Event → Bool
  | .exec cmd => cmd.Args.take 2 == [rawArg "repo", rawArg "add"]
  | _ => false

/-- A subprocess whose arguments are `repo update`, whatever the program. -/
def isRepoUpdate : Event → Bool
  | .exec cmd => cmd.Args == [rawArg "repo", rawArg "update"]
  | _ => false

/-- A subprocess of a release installation, by either strategy. -/
def isInstallExec (e : Event) : Bool :=
  isUpgradeInstall e || isFetch e || isTemplate e || isApply e

/-- What the direct-apply strategy may emit: log lines, the printed
manifests, and the fetch, template and apply commands. -/
def kubectlPathEvent : Event → Bool
  | .log _ => true
  | .print _ => true
  | .writeFile _ _ => false
  | .exec cmd =>
    cmd.Args.take 1 == [rawArg "fetch"] || cmd.Args.take 1 == [rawArg "template"] ||
    cmd.Args.take 1 == [rawArg "apply"]

/-- What the packaged-upgrade strategy may emit: log lines and the
`upgrade --install` command. -/
def helmPathEvent : Event → Bool
  | .log _ => true
  | .exec cmd => cmd.Args.take 2 == [rawArg "upgrade", rawArg "--install"]
  | _ => false

/-- What a release installation may emit. -/
def installEvent (e : Event) : Bool := kubectlPathEvent e || helmPathEvent e

/-- What the steps of `Exec` before `repo update` may emit: log lines, the
kube-config file, `config use-context` and `repo add` commands. -/
def syncEvent : Event → Bool
  | .log _ => true
  | .print _ => false
  | .writeFile _ _ => true
  | .exec cmd =>
    cmd.Args.take 2 == [rawArg "config", rawArg "use-context"] ||
    cmd.Args.take 2 == [rawArg "repo", rawArg "add"]

/-- The call with result `r`, started at trace `t`, only appended events, all
of which satisfy `P`. -/
def Emits {α : Type} (P : Event → Bool) (t : Trace) (r : α × Trace) : Prop :=
  ∃ new, r.2 = t ++ new ∧ ∀ e ∈ new, P e = true

/-- The releases of the list are installed one after the other, each
successfully, taking the trace from `t` to `tEnd`. -/
def InstalledInOrder (p : Plugin) (w : World) : List Release → Trace → Trace → Prop
  | [], t, tEnd => tEnd = t
  | addon :: rest, t, tEnd =>
    ∃ t1, installAddon p w addon t = (none, t1) ∧ InstalledInOrder p w rest t1 tEnd

/-- The repositories of the list are added one after the other, each
successfully, taking the trace from `t` to `tEnd`. -/
def AddedInOrder (w : World) : List HelmRepo → Trace → Trace → Prop
  | [], t, tEnd => tEnd = t
  | repo :: rest, t, tEnd =>
    ∃ t1, addHelmRepo w repo t = (none, t1) ∧ AddedInOrder w rest t1 tEnd

/-- The argument list of the packaged-upgrade command, given the arguments
`ov` that `overrides` returned. -/
def upgradeArgs (p : Plugin) (release : Release) (ov : List Arg) : List Arg :=
  [rawArg "upgrade", rawArg "--install", rawArg release.Name, rawArg release.ChartPath,
    { Typ := .ArgTypeLongParam, Name := "version", Value := release.Version }] ++
  (if p.ClusterConfig.Helm.Debug then [rawArg "--debug"] else []) ++
  (if release.Namespace ≠ "" then
    [{ Typ := .ArgTypeLongParam, Name := "namespace", Value := release.Namespace }] else []) ++
  (if p.ClusterConfig.Helm.LogLevel ≠ 0 then
    [{ Typ := .ArgTypeLongParam, Name := "v",
       Value := toString p.ClusterConfig.Helm.LogLevel }] else []) ++
  ov ++
  (if p.Dryrun then [rawArg "--dry-run"] else [])

/-- The lines `installAddonViaHelm` logs before it runs its command. -/
def upgradeLog (p : Plugin) (w : World) (release : Release) (t : Trace) : Trace :=
  (overrides p (w.stat t) release).2 ++
  (if p.Dryrun then [Event.log ["Running Dry run:", release.Name]] else [])

/-- Resolution of an optional credential: `none` when none is configured,
the plaintext when it resolves, the error otherwise. -/
def resolve : Option Resolvable → Except String (Option String)
  | none => .ok none
  | some secret =>
    match secret.GetValue with
    | .ok v => .ok (some v)
    | .error e => .error e

/-- The argument `--<name> <value>` marked secret, if a value is given. -/
def credentialArgs (name : String) : Option String → List Arg
  | none => []
  | some v => [{ Typ := .ArgTypeLongParam, Name := name, Value := v, ValueSecret := true }]

/-- The command `repo add <name> <url> [--username u] [--password pw]`. -/
def repoAddCmd (w : World) (repo : HelmRepo) (u pw : Option String) : Command :=
  { Name := w.HelmBin,
    Args := [rawArg "repo", rawArg "add", rawArg repo.Name, rawArg repo.URL] ++
      credentialArgs "username" u ++ credentialArgs "password" pw,
    Stdin := none }

/-- The command `fetch --version <version> --untar <chart>`. -/
def fetchCmd (w : World) (release : Release) : Command :=
  { Name := w.HelmBin,
    Args := [rawArg "fetch",
      { Typ := .ArgTypeLongParam, Name := "version", Value := release.Version },
      rawArg "--untar", rawArg release.ChartPath],
    Stdin := none }

/-- The command `template [--namespace ns] [--name n] <overrides> <chart dir>`. -/
def templateCmd (p : Plugin) (w : World) (release : Release) (t : Trace) : Command :=
  { Name := w.HelmBin,
    Args := [rawArg "template"] ++
      (if release.Namespace ≠ "" then
        [{ Typ := .ArgTypeLongParam, Name := "namespace", Value := release.Namespace }]
        else []) ++
      (if release.Name ≠ "" then
        [{ Typ := .ArgTypeLongParam, Name := "name", Value := release.Name }] else []) ++
      (overrides p (w.stat t) release).1 ++ [rawArg (Base release.ChartPath)],
    Stdin := none }

/-- The command `apply --filename -` of the cluster CLI with the manifests
on standard input. -/
def applyCmd (w : World) (manifests : String) : Command :=
  { Name := w.KubectlBin,
    Args := [rawArg "apply", { Typ := .ArgTypeLongParam, Name := "filename", Value := "-" }],
    Stdin := some manifests }

/-- A world in which every command succeeds and prints a manifest, except
the first `apply`, which fails; no value file exists. -/
def retryWorld : World :=
  { HelmBin := "helm", KubectlBin := "kubectl", home := "/root",
    exec := fun t cmd =>
      if cmd.Args.take 1 == [rawArg "apply"] && !(t.any isApply) then
        .error "exit status 1"
      else .ok "kind: Namespace",
    stat := fun _ _ => false,
    write := fun _ _ _ => none }

/-- A release installed by the direct-apply strategy. -/
def ingressRelease : Release :=
  { Name := "ingress", ChartPath := "stable/nginx-ingress", Version := "1.0.0",
    Namespace := "kube-system", DeploymentMethod := "kubectl" }

/-- The command `repo update`. -/
def repoUpdateCmd (w : World) : Command :=
  { Name := w.HelmBin, Args := [rawArg "repo", rawArg "update"], Stdin := none }

/-- The steps of `Exec` before the installations (kube-config setup, every
`repo add`, `repo update`) all succeeded, taking the trace from `t` to `t1`. -/
def Synced (p : Plugin) (w : World) (t t1 : Trace) : Prop :=
  ∃ ta tb, setupKubeconfig p w t = (none, ta) ∧
    AddedInOrder w p.ClusterConfig.Helm.Repos ta tb ∧
    updateHelmRepos w tb = (none, t1)

/-- A world in which every command fails. -/
def failWorld : World :=
  { HelmBin := "helm", KubectlBin := "kubectl", home := "/root",
    exec := fun _ _ => .error "exit status 1",
    stat := fun _ _ => false,
    write := fun _ _ _ => none }

/-- A world in which a command fails iff one of its arguments is the raw
token `broken`. -/
def pickyWorld : World :=
  { HelmBin := "helm", KubectlBin := "kubectl", home := "/root",
    exec := fun _ cmd =>
      if cmd.Args.contains (rawArg "broken") then .error "exit status 1" else .ok "",
    stat := fun _ _ => false,
    write := fun _ _ _ => none }

/-- A repository that can be added in `pickyWorld`. -/
def stableRepo : HelmRepo := { Name := "stable", URL := "https://charts.example/stable" }

/-- A repository that cannot be added in `pickyWorld`. -/
def brokenRepo : HelmRepo := { Name := "broken", URL := "https://charts.example/broken" }

/-- A repository listed after the broken one. -/
def extraRepo : HelmRepo := { Name := "extra", URL := "https://charts.example/extra" }

/-- A release that can be installed in `pickyWorld`. -/
def dnsRelease : Release := { Name := "dns", ChartPath := "stable/dns", Version := "1.0.0" }

/-- A release that cannot be installed in `pickyWorld`. -/
def brokenRelease : Release :=
  { Name := "broken", ChartPath := "stable/broken", Version := "2.0.0" }

/-- A release listed after the broken one. -/
def lateRelease : Release := { Name := "late", ChartPath := "stable/late", Version := "3.0.0" }

/-- A plugin whose second repository cannot be added in `pickyWorld`. -/
def pickyPlugin : Plugin :=
  { ClusterConfig :=
    { Name := "dev",
      Helm := { Repos := [stableRepo, brokenRepo, extraRepo] },
      Releases := [dnsRelease, brokenRelease, lateRelease] } }

/-- A plugin whose repositories can all be added in `pickyWorld`, and whose
second release cannot be installed there. -/
def syncedPlugin : Plugin :=
  { ClusterConfig :=
    { Name := "dev",
      Helm := { Repos := [stableRepo] },
      Releases := [dnsRelease, brokenRelease, lateRelease] } }

/-! ## Lemmas and theorems -/

theorem overridesGlobal_eq (p : Plugin) (s : List Arg × Trace) :
    overridesGlobal p s =
      (s.1 ++ p.ValueFiles.map (fun f => fileArg (TrimSpace f)),
       s.2 ++ p.ValueFiles.map (fun f => Event.log ["Adding override file:", f])) := by
  unfold overridesGlobal
  generalize p.ValueFiles = l
  induction l generalizing s with
  | nil => simp
  | cons f l ih => simp [List.foldl_cons, ih, fileArg]

theorem overridesRelease_eq (stat : String → Bool) (release : Release)
    (s : List Arg × Trace) :
    overridesRelease stat release s =
      (s.1 ++ (release.ValueFiles.filter stat).map fileArg,
       s.2 ++ release.ValueFiles.map (fun path =>
          if stat path then Event.log ["Adding override file:", path]
          else Event.log ["WARN: Value file does not exist:", path])) := by
  unfold overridesRelease
  generalize release.ValueFiles = l
  induction l generalizing s with
  | nil => simp
  | cons f l ih =>
    rw [List.foldl_cons, ih]
    cases h : stat f <;> simp [fileArg, h]

theorem overridesSetValues_eq (release : Release) (s : List String × Trace) :
    overridesSetValues release s =
      (s.1 ++ resolvedPairs release.Overrides,
       s.2 ++ (release.Overrides.map overrideLog).flatten) := by
  unfold overridesSetValues
  generalize release.Overrides = l
  induction l generalizing s with
  | nil => simp [resolvedPairs]
  | cons o l ih =>
    rw [List.foldl_cons, ih]
    cases h : o.GetValue with
    | error e => simp [resolvedPairs, overrideLog, h]
    | ok v =>
      by_cases hv : v = "" <;> simp [resolvedPairs, overrideLog, h, hv]

/-- The arguments `overrides` returns, stage by stage. -/
theorem overrides_args (p : Plugin) (stat : String → Bool) (release : Release) :
    (overrides p stat release).1 =
      p.ValueFiles.map (fun f => fileArg (TrimSpace f)) ++
      releaseFileArgs p stat release ++
      (if resolvedPairs release.Overrides = [] then []
       else [setArg (Join (resolvedPairs release.Overrides) ",")]) := by
  unfold overrides
  simp only [overridesSetValues_eq, overridesGlobal_eq, overridesRelease_eq,
    overridesDefault, overridesCluster, releaseFileArgs]
  by_cases hp : resolvedPairs release.Overrides = []
  · by_cases hd : stat ("values/" ++ release.Name ++ "/default.yaml") = true <;>
    by_cases hn : p.ClusterConfig.Name = "" <;>
    by_cases hc : stat ("values/" ++ release.Name ++ "/" ++ p.ClusterConfig.Name ++ ".yaml") = true <;>
    simp [hp, hd, hn, hc, fileArg]
  · have hl : 0 < (resolvedPairs release.Overrides).length := List.length_pos.mpr hp
    by_cases hd : stat ("values/" ++ release.Name ++ "/default.yaml") = true <;>
    by_cases hn : p.ClusterConfig.Name = "" <;>
    by_cases hc : stat ("values/" ++ release.Name ++ "/" ++ p.ClusterConfig.Name ++ ".yaml") = true <;>
    simp [hp, hl, hd, hn, hc, fileArg, setArg]

/-- The lines `overrides` logs, stage by stage. -/
theorem overrides_log (p : Plugin) (stat : String → Bool) (release : Release) :
    (overrides p stat release).2 =
      p.ValueFiles.map (fun f => Event.log ["Adding override file:", f]) ++
      releaseFileLog p stat release ++
      (release.Overrides.map overrideLog).flatten := by
  unfold overrides
  simp only [overridesSetValues_eq, overridesGlobal_eq, overridesRelease_eq,
    overridesDefault, overridesCluster, releaseFileLog]
  by_cases hl : 0 < (resolvedPairs release.Overrides).length <;>
  by_cases hd : stat ("values/" ++ release.Name ++ "/default.yaml") = true <;>
  by_cases hn : p.ClusterConfig.Name = "" <;>
  by_cases hc : stat ("values/" ++ release.Name ++ "/" ++ p.ClusterConfig.Name ++ ".yaml") = true <;>
  simp [hl, hd, hn, hc]

theorem releaseFileArgs_filter (p : Plugin) (stat : String → Bool) (release : Release) :
    (releaseFileArgs p stat release).filter isFileArg = releaseFileArgs p stat release := by
  rw [List.filter_eq_self]
  intro a ha
  simp only [releaseFileArgs, List.mem_append, List.mem_map] at ha
  rcases ha with (ha | ⟨x, -, rfl⟩) | ha
  · split at ha
    · simp at ha; subst ha; rfl
    · simp at ha
  · rfl
  · split at ha
    · simp at ha; subst ha; rfl
    · simp at ha

theorem valueFileWarning_filter (stat : String → Bool) (l : List String) :
    (l.map (fun path =>
        if stat path then Event.log ["Adding override file:", path]
        else Event.log ["WARN: Value file does not exist:", path])).filter isValueFileWarning =
      (l.filter (fun path => !stat path)).map
        (fun path => Event.log ["WARN: Value file does not exist:", path]) := by
  induction l with
  | nil => rfl
  | cons f l ih =>
    cases h : stat f <;> simp [h, isValueFileWarning, List.filter_cons] <;> simpa using ih

theorem overrideLog_no_valueFileWarning (l : List Override) :
    ((l.map overrideLog).flatten).filter isValueFileWarning = [] := by
  induction l with
  | nil => rfl
  | cons o l ih =>
    simp only [List.map_cons, List.flatten_cons, List.filter_append, ih, List.append_nil]
    unfold overrideLog
    cases o.GetValue with
    | error e => simp [List.filter_cons, isValueFileWarning]
    | ok v => by_cases hv : v = "" <;> simp [List.filter_cons, isValueFileWarning, hv]

/-- C2: after the entries of the explicit global value files, the `-f`
arguments of `overrides` are exactly: `values/<release>/default.yaml` iff it
exists, then the listed value files that exist in listed order, then
`values/<release>/<cluster>.yaml` iff the cluster name is non-empty and the
file exists; and one warning is logged per missing listed file. -/
theorem overrides_release_file_args (p : Plugin) (stat : String → Bool) (release : Release) :
    (((overrides p stat release).1.drop p.ValueFiles.length).filter isFileArg =
      (if stat ("values/" ++ release.Name ++ "/default.yaml") then
          [fileArg ("values/" ++ release.Name ++ "/default.yaml")] else []) ++
      (release.ValueFiles.filter stat).map fileArg ++
      (if p.ClusterConfig.Name ≠ "" ∧
          stat ("values/" ++ release.Name ++ "/" ++ p.ClusterConfig.Name ++ ".yaml") then
          [fileArg ("values/" ++ release.Name ++ "/" ++ p.ClusterConfig.Name ++ ".yaml")]
        else [])) ∧
    (overrides p stat release).2.filter isValueFileWarning =
      (release.ValueFiles.filter (fun path => !stat path)).map
        (fun path => Event.log ["WARN: Value file does not exist:", path]) := by
  constructor
  · rw [overrides_args, List.append_assoc]
    rw [List.drop_left' (by simp)]
    rw [List.filter_append, releaseFileArgs_filter]
    have : (if resolvedPairs release.Overrides = [] then []
        else [setArg (Join (resolvedPairs release.Overrides) ",")]).filter isFileArg = [] := by
      split <;> simp [List.filter_cons, isFileArg, setArg]
    rw [this, List.append_nil]
    rfl
  · rw [overrides_log]
    simp only [List.filter_append, releaseFileLog, valueFileWarning_filter,
      overrideLog_no_valueFileWarning, List.append_nil]
    have h1 : (p.ValueFiles.map (fun f => Event.log ["Adding override file:", f])).filter
        isValueFileWarning = [] := by
      rw [List.filter_eq_nil_iff]
      intro a ha
      simp only [List.mem_map] at ha
      obtain ⟨x, -, rfl⟩ := ha
      simp [isValueFileWarning]
    rw [h1]
    split <;> split <;> simp [List.filter_cons, isValueFileWarning]

/-- C3 as stated fails: a global value file given with surrounding white
space is passed with the white space removed, not as given. -/
theorem overrides_global_not_verbatim :
    ((overrides { ValueFiles := [" a.yaml"] } (fun _ => false) { Name := "r" }).1.take 1 =
        [fileArg "a.yaml"]) ∧
    fileArg "a.yaml" ≠ fileArg " a.yaml" := by
  constructor
  · rfl
  · decide

/-- C3, amended: the result of `overrides` begins with one `-f` argument per
explicit global value file, in the given order, whose value is the given path
with leading and trailing white space removed (`strings.TrimSpace`). -/
theorem overrides_global_first (p : Plugin) (stat : String → Bool) (release : Release) :
    (overrides p stat release).1.take p.ValueFiles.length =
      p.ValueFiles.map (fun fileName =>
        ({ Typ := .ArgTypeShortParam, Name := "f", Value := TrimSpace fileName } : Arg)) := by
  rw [overrides_args, List.append_assoc]
  rw [List.take_left' (by simp)]
  rfl

/-- The file stages of `overrides` log nothing that `q` selects, when `q`
rejects their two kinds of line. -/
theorem fileLog_filter_nil (q : Event → Bool)
    (hq1 : ∀ x, q (Event.log ["Adding override file:", x]) = false)
    (hq2 : ∀ x, q (Event.log ["WARN: Value file does not exist:", x]) = false)
    (p : Plugin) (stat : String → Bool) (release : Release) :
    (p.ValueFiles.map (fun f => Event.log ["Adding override file:", f]) ++
      releaseFileLog p stat release).filter q = [] := by
  rw [List.filter_eq_nil_iff]
  intro a ha
  simp only [releaseFileLog, List.mem_append, List.mem_map] at ha
  rcases ha with ⟨x, -, rfl⟩ | (ha | ⟨x, -, rfl⟩) | ha
  · simp [hq1]
  · split at ha
    · simp at ha; subst ha; simp [hq1]
    · simp at ha
  · split <;> simp [hq1, hq2]
  · split at ha
    · simp at ha; subst ha; simp [hq1]
    · simp at ha

theorem overrideLog_skipWarning (l : List Override) :
    ((l.map overrideLog).flatten).filter isSkipWarning =
      (resolveErrors l).map (fun e =>
        Event.log ["WARNING: Could not get override value. Skipping override:", e]) := by
  induction l with
  | nil => rfl
  | cons o l ih =>
    simp only [List.map_cons, List.flatten_cons, List.filter_append, ih]
    unfold overrideLog resolveErrors
    cases h : o.GetValue with
    | error e => simp [List.filter_cons, isSkipWarning, h]
    | ok v => by_cases hv : v = "" <;> simp [List.filter_cons, isSkipWarning, hv, h]

theorem resolvedPairs_ne_nil (l : List Override) :
    resolvedPairs l ≠ [] ↔ ∃ o ∈ l, ∃ v, o.GetValue = .ok v := by
  induction l with
  | nil => simp [resolvedPairs]
  | cons o l ih =>
    unfold resolvedPairs at ih ⊢
    cases h : o.GetValue with
    | error e =>
      rw [List.filterMap_cons_none (by simp [h])]
      simp [ih, h]
    | ok v =>
      rw [List.filterMap_cons_some (by simp [h]; rfl)]
      simp [h]

/-- C4: `overrides` returns at most one `--set` argument; it is present iff
some override resolves, is then the last argument, is marked secret, and its
value is the comma-join of `target=value` over the overrides that resolve, in
listed order (an empty value gives `target=`); each override that fails to
resolve is skipped with one warning.  For `[{a,"1"},{b,unresolvable},{c,"3"}]`
the value is `a=1,c=3` and exactly one warning is logged. -/
theorem overrides_set_arg (p : Plugin) (stat : String → Bool) (release : Release) :
    ((overrides p stat release).1.filter isSetArg =
      (if resolvedPairs release.Overrides = [] then []
       else [{ Typ := .ArgTypeLongParam, Name := "set",
               Value := Join (resolvedPairs release.Overrides) ",",
               ValueSecret := true }])) ∧
    (if resolvedPairs release.Overrides = [] then True
     else (overrides p stat release).1.getLast? =
       some { Typ := .ArgTypeLongParam, Name := "set",
              Value := Join (resolvedPairs release.Overrides) ",",
              ValueSecret := true }) ∧
    (resolvedPairs release.Overrides ≠ [] ↔
      ∃ o ∈ release.Overrides, ∃ v, o.GetValue = .ok v) ∧
    ((overrides p stat release).2.filter isSkipWarning =
      (resolveErrors release.Overrides).map (fun e =>
        Event.log ["WARNING: Could not get override value. Skipping override:", e])) ∧
    (∀ target : String,
      (overrides p stat { release with Overrides :=
          [{ Target := target, GetValue := .ok "" }] }).1.filter isSetArg =
        [{ Typ := .ArgTypeLongParam, Name := "set", Value := target ++ "=",
           ValueSecret := true }]) ∧
    (∀ e : String,
      (overrides p stat { release with Overrides :=
          [{ Target := "a", GetValue := .ok "1" }, { Target := "b", GetValue := .error e },
           { Target := "c", GetValue := .ok "3" }] }).1.filter isSetArg =
        [{ Typ := .ArgTypeLongParam, Name := "set", Value := "a=1,c=3", ValueSecret := true }] ∧
      (overrides p stat { release with Overrides :=
          [{ Target := "a", GetValue := .ok "1" }, { Target := "b", GetValue := .error e },
           { Target := "c", GetValue := .ok "3" }] }).2.filter
          (fun ev => isSkipWarning ev || isBlankWarning ev) =
        [Event.log ["WARNING: Could not get override value. Skipping override:", e]]) := by
  have hfiles : ∀ r : Release,
      (p.ValueFiles.map (fun f => fileArg (TrimSpace f)) ++
        releaseFileArgs p stat r).filter isSetArg = [] := by
    intro r
    rw [List.filter_eq_nil_iff]
    intro a ha
    rw [List.mem_append] at ha
    rcases ha with ha | ha
    · simp only [List.mem_map] at ha
      obtain ⟨x, -, rfl⟩ := ha
      simp [isSetArg, fileArg]
    · rw [← releaseFileArgs_filter, List.mem_filter] at ha
      have h2 := ha.2
      simp only [isFileArg, Bool.and_eq_true, beq_iff_eq] at h2
      simp [isSetArg, h2.1]
  refine ⟨?_, ?_, resolvedPairs_ne_nil _, ?_, ?_, ?_⟩
  · rw [overrides_args, List.filter_append, hfiles, List.nil_append]
    split <;> simp [List.filter_cons, isSetArg, setArg]
  · split
    · trivial
    · next h =>
      rw [overrides_args, if_neg h, List.getLast?_append]
      simp [setArg]
  · rw [overrides_log, List.filter_append,
      fileLog_filter_nil isSkipWarning (by simp [isSkipWarning]) (by simp [isSkipWarning]),
      List.nil_append, overrideLog_skipWarning]
  · intro target
    rw [overrides_args, List.filter_append, hfiles, List.nil_append]
    simp [resolvedPairs, List.filter_cons, isSetArg, setArg, Join, String.intercalate,
      String.intercalate.go]
  · intro e
    constructor
    · rw [overrides_args, List.filter_append, hfiles, List.nil_append]
      simp [resolvedPairs, List.filter_cons, isSetArg, setArg, Join, String.intercalate,
        String.intercalate.go]
    · rw [overrides_log, List.filter_append,
        fileLog_filter_nil _ (by simp [isSkipWarning, isBlankWarning])
          (by simp [isSkipWarning, isBlankWarning]), List.nil_append]
      simp [overrideLog, List.filter_cons, isSkipWarning, isBlankWarning]

theorem Emits.refl {α : Type} (P : Event → Bool) (t : Trace) (a : α) : Emits P t (a, t) :=
  ⟨[], by simp, by simp⟩

theorem Emits.trans {α β : Type} {P : Event → Bool} {t : Trace} {r1 : α × Trace}
    {r2 : β × Trace} (h1 : Emits P t r1) (h2 : Emits P r1.2 r2) : Emits P t r2 := by
  obtain ⟨n1, e1, a1⟩ := h1
  obtain ⟨n2, e2, a2⟩ := h2
  refine ⟨n1 ++ n2, by rw [e2, e1, List.append_assoc], ?_⟩
  intro e he
  rcases List.mem_append.mp he with h | h
  · exact a1 e h
  · exact a2 e h

theorem Emits.mono {α : Type} {P Q : Event → Bool} {t : Trace} {r : α × Trace}
    (h : Emits P t r) (hPQ : ∀ e, P e = true → Q e = true) : Emits Q t r := by
  obtain ⟨n, e, a⟩ := h
  exact ⟨n, e, fun x hx => hPQ x (a x hx)⟩

theorem Emits.append {α : Type} (P : Event → Bool) (t new : Trace) (a : α)
    (h : ∀ e ∈ new, P e = true) : Emits P t (a, t ++ new) :=
  ⟨new, rfl, h⟩

/-- Events selected by `q` are absent from what a call emitted when every
emitted event satisfies `P` and `P` excludes `q`. -/
theorem Emits.filter_nil {α : Type} {P : Event → Bool} {t : Trace} {r : α × Trace}
    (h : Emits P t r) (q : Event → Bool) (hq : ∀ e, P e = true → q e = false) :
    (emitted t r).filter q = [] := by
  obtain ⟨n, e, a⟩ := h
  unfold emitted
  rw [e, List.drop_left, List.filter_eq_nil_iff]
  intro x hx
  simp [hq x (a x hx)]

theorem emitted_append {α : Type} (t new : Trace) (a : α) :
    emitted t (a, t ++ new) = new := by
  simp [emitted]

theorem addOverrides_eq (cb : CommandBuilder) (args : List Arg) :
    addOverrides cb args = { cb with Args := cb.Args ++ args } := by
  unfold addOverrides
  induction args generalizing cb with
  | nil => simp
  | cons a l ih =>
    rw [List.foldl_cons, ih]
    simp [CommandBuilder.Add]

theorem overrides_log_all (p : Plugin) (stat : String → Bool) (release : Release) :
    ∀ e ∈ (overrides p stat release).2, ∃ parts, e = Event.log parts := by
  intro e he
  rw [overrides_log] at he
  simp only [releaseFileLog, List.mem_append, List.mem_map, List.mem_flatten] at he
  rcases he with (⟨x, -, rfl⟩ | (he | ⟨x, -, rfl⟩) | he) | ⟨l, ⟨o, -, rfl⟩, he⟩
  · exact ⟨_, rfl⟩
  · split at he
    · simp at he; exact ⟨_, he⟩
    · simp at he
  · split <;> exact ⟨_, rfl⟩
  · split at he
    · simp at he; exact ⟨_, he⟩
    · simp at he
  · unfold overrideLog at he
    rcases List.mem_cons.mp he with h | h
    · exact ⟨_, h⟩
    · cases hg : o.GetValue with
      | error err => rw [hg] at h; simp at h; exact ⟨_, h⟩
      | ok v =>
        rw [hg] at h
        by_cases hv : v = ""
        · simp [hv] at h; exact ⟨_, h⟩
        · simp [hv] at h

theorem upgradeLog_all (p : Plugin) (w : World) (release : Release) (t : Trace) :
    ∀ e ∈ upgradeLog p w release t, ∃ parts, e = Event.log parts := by
  intro e he
  unfold upgradeLog at he
  rcases List.mem_append.mp he with h | h
  · exact overrides_log_all _ _ _ e h
  · split at h
    · simp at h; exact ⟨_, h⟩
    · simp at h

theorem installAddonViaHelm_eq (p : Plugin) (w : World) (release : Release) (t : Trace) :
    installAddonViaHelm p w release t =
      ((match w.exec (t ++ upgradeLog p w release t)
          { Name := w.HelmBin,
            Args := upgradeArgs p release (overrides p (w.stat t) release).1 } with
        | .ok _ => none
        | .error e => some ("Error running helm: " ++ e)),
       t ++ upgradeLog p w release t ++
        [Event.exec { Name := w.HelmBin,
                      Args := upgradeArgs p release (overrides p (w.stat t) release).1 }]) := by
  unfold installAddonViaHelm
  simp only [addOverrides_eq, CommandBuilder.Run, utilsRun, CommandBuilder.Command,
    CommandBuilder.Add, upgradeArgs, upgradeLog, rawArg]
  by_cases h1 : p.ClusterConfig.Helm.Debug = true <;>
  by_cases h2 : release.Namespace = "" <;>
  by_cases h3 : p.ClusterConfig.Helm.LogLevel = 0 <;>
  by_cases h4 : p.Dryrun = true <;>
  simp [h1, h2, h3, h4] <;>
  split <;> split <;> simp_all

/-- C10: `installAddonViaHelm` runs exactly one subprocess, whose arguments
are `upgrade --install <name> <chart> --version <version>`, then `--debug` if
`Helm.Debug`, `--namespace <ns>` if the namespace is non-empty, `--v <level>`
if `Helm.LogLevel` is non-zero, the arguments of `overrides(release)` in their
order, and last `--dry-run` iff the run is a dry run; the result is success
iff that one subprocess succeeds, otherwise its error (wrapped). -/
theorem installAddonViaHelm_single_command (p : Plugin) (w : World) (release : Release)
    (t : Trace) :
    ((emitted t (installAddonViaHelm p w release t)).filter isExec =
      [Event.exec { Name := w.HelmBin, Stdin := none, Args :=
        [rawArg "upgrade", rawArg "--install", rawArg release.Name, rawArg release.ChartPath,
          { Typ := .ArgTypeLongParam, Name := "version", Value := release.Version }] ++
        (if p.ClusterConfig.Helm.Debug then [rawArg "--debug"] else []) ++
        (if release.Namespace ≠ "" then
          [{ Typ := .ArgTypeLongParam, Name := "namespace", Value := release.Namespace }]
          else []) ++
        (if p.ClusterConfig.Helm.LogLevel ≠ 0 then
          [{ Typ := .ArgTypeLongParam, Name := "v",
             Value := toString p.ClusterConfig.Helm.LogLevel }] else []) ++
        (overrides p (w.stat t) release).1 ++
        (if p.Dryrun then [rawArg "--dry-run"] else []) }]) ∧
    (installAddonViaHelm p w release t).1 =
      (match w.exec (t ++ upgradeLog p w release t)
          { Name := w.HelmBin,
            Args := upgradeArgs p release (overrides p (w.stat t) release).1 } with
        | .ok _ => none
        | .error e => some ("Error running helm: " ++ e)) := by
  rw [installAddonViaHelm_eq]
  refine ⟨?_, rfl⟩
  rw [List.append_assoc, emitted_append, List.filter_append]
  have h : (upgradeLog p w release t).filter isExec = [] := by
    rw [List.filter_eq_nil_iff]
    intro e he
    obtain ⟨parts, rfl⟩ := upgradeLog_all p w release t e he
    simp [isExec]
  rw [h]
  simp [List.filter_cons, isExec, upgradeArgs]

/-- The result and trace of `addHelmRepo`, by outcome of the credential
resolution. -/
theorem addHelmRepo_eq (w : World) (repo : HelmRepo) (t : Trace) :
    addHelmRepo w repo t =
      match resolve repo.Username, resolve repo.Password with
      | .error e, _ =>
        (some ("Could not get username for repo: " ++ e),
         t ++ [Event.log ["Adding Helm repo:", repo.Name]])
      | .ok _, .error e =>
        (some ("Could not get password for repo: " ++ e),
         t ++ [Event.log ["Adding Helm repo:", repo.Name]])
      | .ok u, .ok pw =>
        ((match w.exec (t ++ [Event.log ["Adding Helm repo:", repo.Name]])
            (repoAddCmd w repo u pw) with
          | .ok _ => none
          | .error e => some ("Could not add repo \"" ++ repo.Name ++ "\": " ++ e)),
         t ++ [Event.log ["Adding Helm repo:", repo.Name],
               Event.exec (repoAddCmd w repo u pw)]) := by
  unfold addHelmRepo
  simp only [CommandBuilder.Run, utilsRun, CommandBuilder.Command, CommandBuilder.Add]
  cases hu : repo.Username with
  | none =>
    cases hp : repo.Password with
    | none =>
      simp only [resolve, repoAddCmd, credentialArgs, rawArg, List.nil_append, List.append_nil,
        List.append_assoc, List.cons_append]
      split <;> split <;> simp_all
    | some sp =>
      cases hg : sp.GetValue with
      | error e => simp [resolve, hg]
      | ok v =>
        simp only [resolve, hg, repoAddCmd, credentialArgs, rawArg, List.nil_append,
          List.append_nil, List.append_assoc, List.cons_append]
        split <;> split <;> simp_all
  | some su =>
    cases hgu : su.GetValue with
    | error e => simp [resolve, hgu]
    | ok vu =>
      cases hp : repo.Password with
      | none =>
        simp only [resolve, hgu, repoAddCmd, credentialArgs, rawArg, List.nil_append,
          List.append_nil, List.append_assoc, List.cons_append]
        split <;> split <;> simp_all
      | some sp =>
        cases hg : sp.GetValue with
        | error e => simp [resolve, hgu, hg]
        | ok v =>
          simp only [resolve, hgu, hg, repoAddCmd, credentialArgs, rawArg, List.nil_append,
            List.append_nil, List.append_assoc, List.cons_append]
          split <;> split <;> simp_all

theorem kubectlApplyCmd_eq (w : World) (m : String) : kubectlApplyCmd w m = applyCmd w m := rfl

theorem fetchChart_eq (w : World) (release : Release) (t : Trace) :
    fetchChart w release t =
      ((match w.exec t (fetchCmd w release) with
        | .ok _ => none
        | .error e => some e),
       t ++ [Event.exec (fetchCmd w release)]) := rfl

theorem templateChart_eq (p : Plugin) (w : World) (release : Release) (t : Trace) :
    templateChart p w release t =
      (w.exec (t ++ (overrides p (w.stat t) release).2) (templateCmd p w release t),
       t ++ (overrides p (w.stat t) release).2 ++
        [Event.exec (templateCmd p w release t)]) := by
  unfold templateChart
  simp only [addOverrides_eq, cmdOutput, CommandBuilder.Command, CommandBuilder.Add,
    templateCmd, rawArg]
  by_cases h1 : release.Namespace = "" <;> by_cases h2 : release.Name = "" <;>
  simp [h1, h2] <;> split <;> simp_all

theorem fetchChart_emits (w : World) (release : Release) (t : Trace) :
    Emits kubectlPathEvent t (fetchChart w release t) := by
  rw [fetchChart_eq]
  exact Emits.append _ _ _ _ (by simp [kubectlPathEvent, fetchCmd])

theorem templateChart_emits (p : Plugin) (w : World) (release : Release) (t : Trace) :
    Emits kubectlPathEvent t (templateChart p w release t) := by
  rw [templateChart_eq, List.append_assoc]
  refine Emits.append _ _ _ _ ?_
  intro e he
  rcases List.mem_append.mp he with h | h
  · obtain ⟨parts, rfl⟩ := overrides_log_all _ _ _ e h
    rfl
  · simp at h
    subst h
    simp [kubectlPathEvent, templateCmd]

theorem installAddonViaKubectl_emits (p : Plugin) (w : World) (release : Release)
    (t : Trace) : Emits kubectlPathEvent t (installAddonViaKubectl p w release t) := by
  unfold installAddonViaKubectl
  have hf := fetchChart_emits w release t
  split
  · next err t1 h1 =>
    rw [h1] at hf
    exact hf
  · next t1 h1 =>
    rw [h1] at hf
    have ht := templateChart_emits p w release t1
    split
    · next err t2 h2 =>
      rw [h2] at ht
      exact Emits.trans hf ht
    · next m t2 h2 =>
      rw [h2] at ht
      have h12 : Emits kubectlPathEvent t ((none : Err), t2) := Emits.trans hf ht
      split
      · exact Emits.trans h12 (Emits.append _ _ _ _ (by simp [kubectlPathEvent]))
      · have ha : ∀ tt, Emits kubectlPathEvent tt (utilsRun w (kubectlApplyCmd w m) tt) :=
          fun tt => Emits.append _ _ _ _ (by simp [kubectlPathEvent, kubectlApplyCmd,
            CommandBuilder.Command, CommandBuilder.Add, rawArg])
        split
        · next e3 t3 h3 =>
          have h23 := ha t2
          rw [h3] at h23
          exact Emits.trans (Emits.trans h12 h23) (ha t3)
        · next t3 h3 =>
          have h23 := ha t2
          rw [h3] at h23
          exact Emits.trans h12 h23

theorem installAddonViaHelm_emits (p : Plugin) (w : World) (release : Release)
    (t : Trace) : Emits helmPathEvent t (installAddonViaHelm p w release t) := by
  rw [installAddonViaHelm_eq, List.append_assoc]
  refine Emits.append _ _ _ _ ?_
  intro e he
  rcases List.mem_append.mp he with h | h
  · obtain ⟨parts, rfl⟩ := upgradeLog_all _ _ _ _ e h
    rfl
  · simp at h
    subst h
    simp [helmPathEvent, upgradeArgs]

theorem kubectl_steps_no_apply (p : Plugin) (w : World) (release : Release)
    (t t1 t2 : Trace) (r1 : Err) (r2 : Except String String)
    (hf : fetchChart w release t = (r1, t1))
    (ht : templateChart p w release t1 = (r2, t2)) (rest : Trace) :
    (emitted t ((none : Err), t2 ++ rest)).filter isApply = rest.filter isApply := by
  rw [templateChart_eq] at ht
  rw [fetchChart_eq] at hf
  have h1 : t1 = t ++ [Event.exec (fetchCmd w release)] := (Prod.mk.inj hf).2.symm
  have h2 : t2 = t1 ++ (overrides p (w.stat t1) release).2 ++
      [Event.exec (templateCmd p w release t1)] := (Prod.mk.inj ht).2.symm
  rw [h2, h1]
  simp only [List.append_assoc, emitted_append, List.filter_append]
  have hl : (overrides p (w.stat (t ++ [Event.exec (fetchCmd w release)])) release).2.filter
      isApply = [] := by
    rw [List.filter_eq_nil_iff]
    intro e he
    obtain ⟨parts, rfl⟩ := overrides_log_all _ _ _ e he
    simp [isApply]
  rw [hl]
  simp [List.filter_cons, isApply, fetchCmd, templateCmd, rawArg]

/-- C9: if a configured username or password fails to resolve, `addHelmRepo`
returns an error and runs no subprocess; otherwise it runs exactly one
command, `repo add <name> <url>` followed by `--username <value>` if a
username is configured and `--password <value>` if a password is configured,
both marked secret, and returns that command's outcome. -/
theorem addHelmRepo_command (w : World) (repo : HelmRepo) (t : Trace) :
    addHelmRepo w repo t =
      match resolve repo.Username, resolve repo.Password with
      | .error e, _ =>
        (some ("Could not get username for repo: " ++ e),
         t ++ [Event.log ["Adding Helm repo:", repo.Name]])
      | .ok _, .error e =>
        (some ("Could not get password for repo: " ++ e),
         t ++ [Event.log ["Adding Helm repo:", repo.Name]])
      | .ok u, .ok pw =>
        ((match w.exec (t ++ [Event.log ["Adding Helm repo:", repo.Name]])
            (repoAddCmd w repo u pw) with
          | .ok _ => none
          | .error e => some ("Could not add repo \"" ++ repo.Name ++ "\": " ++ e)),
         t ++ [Event.log ["Adding Helm repo:", repo.Name],
               Event.exec (repoAddCmd w repo u pw)]) :=
  addHelmRepo_eq w repo t

/-- C1: with `Dryrun = false`, fetch and render succeeding and `m` the
rendered manifests: if the first `apply --filename -` (with `m` on standard
input) succeeds it is the only apply and the release succeeds; if it fails,
the same command with the same input is run exactly once more, and the result
is the second attempt's result (success, or the second attempt's error). -/
theorem installAddonViaKubectl_apply_retry (p : Plugin) (w : World) (release : Release)
    (t t1 t2 : Trace) (m : String) (hd : p.Dryrun = false)
    (hf : fetchChart w release t = (none, t1))
    (ht : templateChart p w release t1 = (.ok m, t2)) :
    (installAddonViaKubectl p w release t =
      match w.exec t2 (applyCmd w m) with
      | .ok _ => (none, t2 ++ [Event.exec (applyCmd w m)])
      | .error _ =>
        ((match w.exec (t2 ++ [Event.exec (applyCmd w m)]) (applyCmd w m) with
          | .ok _ => none
          | .error e => some e),
         t2 ++ [Event.exec (applyCmd w m), Event.exec (applyCmd w m)])) ∧
    ((emitted t (installAddonViaKubectl p w release t)).filter isApply =
      match w.exec t2 (applyCmd w m) with
      | .ok _ => [Event.exec (applyCmd w m)]
      | .error _ => [Event.exec (applyCmd w m), Event.exec (applyCmd w m)]) := by
  have heq : installAddonViaKubectl p w release t =
      match w.exec t2 (applyCmd w m) with
      | .ok _ => (none, t2 ++ [Event.exec (applyCmd w m)])
      | .error _ =>
        ((match w.exec (t2 ++ [Event.exec (applyCmd w m)]) (applyCmd w m) with
          | .ok _ => none
          | .error e => some e),
         t2 ++ [Event.exec (applyCmd w m), Event.exec (applyCmd w m)]) := by
    unfold installAddonViaKubectl
    simp only [hf, ht, hd, kubectlApplyCmd_eq, utilsRun]
    cases h : w.exec t2 (applyCmd w m) with
    | ok out => simp
    | error e => simp
  refine ⟨heq, ?_⟩
  rw [heq]
  cases h : w.exec t2 (applyCmd w m) with
  | ok out =>
    simp only []
    rw [kubectl_steps_no_apply p w release t t1 t2 none (.ok m) hf ht]
    simp [List.filter_cons, isApply, applyCmd]
  | error e =>
    simp only []
    have := kubectl_steps_no_apply p w release t t1 t2 none (.ok m) hf ht
      [Event.exec (applyCmd w m), Event.exec (applyCmd w m)]
    unfold emitted at this ⊢
    rw [this]
    simp [List.filter_cons, isApply, applyCmd]

/-- Instance of C1 in a world where the first apply fails and the second
succeeds: two identical applies, and the release succeeds. -/
theorem installAddonViaKubectl_apply_retry_witness :
    installAddonViaKubectl {} retryWorld ingressRelease [] =
      (none,
       (templateChart {} retryWorld ingressRelease (fetchChart retryWorld ingressRelease []).2).2 ++
        [Event.exec (applyCmd retryWorld "kind: Namespace"),
         Event.exec (applyCmd retryWorld "kind: Namespace")]) ∧
    (emitted [] (installAddonViaKubectl {} retryWorld ingressRelease [])).filter isApply =
      [Event.exec (applyCmd retryWorld "kind: Namespace"),
       Event.exec (applyCmd retryWorld "kind: Namespace")] :=
  installAddonViaKubectl_apply_retry {} retryWorld ingressRelease []
    (fetchChart retryWorld ingressRelease []).2
    (templateChart {} retryWorld ingressRelease (fetchChart retryWorld ingressRelease []).2).2
    "kind: Namespace" rfl rfl rfl

/-- C6: with `Dryrun = true`, fetch and render succeeding and `m` the
rendered manifests, `installAddonViaKubectl` prints `m`, returns success and
runs no `apply`. -/
theorem installAddonViaKubectl_dryrun (p : Plugin) (w : World) (release : Release)
    (t t1 t2 : Trace) (m : String) (hd : p.Dryrun = true)
    (hf : fetchChart w release t = (none, t1))
    (ht : templateChart p w release t1 = (.ok m, t2)) :
    installAddonViaKubectl p w release t =
      (none, t2 ++ [Event.log ["Running Dry run:", release.Name],
                    Event.print ("rendered chart output:\n" ++ m)]) ∧
    (emitted t (installAddonViaKubectl p w release t)).filter isApply = [] := by
  have heq : installAddonViaKubectl p w release t =
      (none, t2 ++ [Event.log ["Running Dry run:", release.Name],
                    Event.print ("rendered chart output:\n" ++ m)]) := by
    unfold installAddonViaKubectl
    simp only [hf, ht, hd, if_true]
  refine ⟨heq, ?_⟩
  rw [heq, kubectl_steps_no_apply p w release t t1 t2 none (.ok m) hf ht]
  simp [List.filter_cons, isApply]

/-- Instance of C6: a dry run in a world whose first apply would fail. -/
theorem installAddonViaKubectl_dryrun_witness :
    installAddonViaKubectl { Dryrun := true } retryWorld ingressRelease [] =
      (none,
       (templateChart { Dryrun := true } retryWorld ingressRelease
          (fetchChart retryWorld ingressRelease []).2).2 ++
        [Event.log ["Running Dry run:", "ingress"],
         Event.print ("rendered chart output:\n" ++ "kind: Namespace")]) ∧
    (emitted [] (installAddonViaKubectl { Dryrun := true } retryWorld ingressRelease
      [])).filter isApply = [] :=
  installAddonViaKubectl_dryrun { Dryrun := true } retryWorld ingressRelease []
    (fetchChart retryWorld ingressRelease []).2
    (templateChart { Dryrun := true } retryWorld ingressRelease
      (fetchChart retryWorld ingressRelease []).2).2
    "kind: Namespace" rfl rfl rfl

theorem installAddon_emits_kubectl (p : Plugin) (w : World) (release : Release) (t : Trace)
    (h : release.DeploymentMethod = "kubectl") :
    Emits kubectlPathEvent t (installAddon p w release t) := by
  unfold installAddon
  simp only [h, if_true]
  have h0 : Emits kubectlPathEvent t ((none : Err),
      t ++ [Event.log ["Installing addon:", release.Name, "@", release.Version]]) :=
    Emits.append _ _ _ _ (by simp [kubectlPathEvent])
  exact Emits.trans h0 (installAddonViaKubectl_emits p w release _)

theorem installAddon_emits_helm (p : Plugin) (w : World) (release : Release) (t : Trace)
    (h : release.DeploymentMethod ≠ "kubectl") :
    Emits helmPathEvent t (installAddon p w release t) := by
  unfold installAddon
  simp only [h, if_false, ite_self]
  have h0 : Emits helmPathEvent t ((none : Err),
      t ++ [Event.log ["Installing addon:", release.Name, "@", release.Version]]) :=
    Emits.append _ _ _ _ (by simp [helmPathEvent])
  exact Emits.trans h0 (installAddonViaHelm_emits p w release _)

theorem kubectlPathEvent_not_upgrade (e : Event) (h : kubectlPathEvent e = true) :
    isUpgradeInstall e = false := by
  cases e with
  | exec cmd =>
    simp only [kubectlPathEvent, Bool.or_eq_true, beq_iff_eq] at h
    simp only [isUpgradeInstall, beq_eq_false_iff_ne, ne_eq]
    intro h2
    have h3 : cmd.Args.take 1 = [rawArg "upgrade"] := by
      have := congrArg (List.take 1) h2
      simpa [List.take_take] using this
    rw [h3] at h
    revert h
    decide
  | _ => rfl

theorem helmPathEvent_not_kubectl (e : Event) (h : helmPathEvent e = true) :
    (isFetch e || isTemplate e || isApply e) = false := by
  cases e with
  | exec cmd =>
    simp only [helmPathEvent, beq_iff_eq] at h
    have h3 : cmd.Args.take 1 = [rawArg "upgrade"] := by
      have := congrArg (List.take 1) h
      simpa [List.take_take] using this
    simp only [isFetch, isTemplate, isApply, h3]
    decide
  | _ => rfl

/-- C5: `installAddon` on a release with `DeploymentMethod == "kubectl"`
takes the direct-apply strategy and never runs `upgrade --install`; on any
other deployment method (`"helm"`, empty, anything else) it takes the
packaged-upgrade strategy and never runs `fetch`, `template` or `apply`;
whatever the outcomes of the subprocesses. -/
theorem installAddon_dispatch (p : Plugin) (w : World) (release : Release) (t : Trace) :
    if release.DeploymentMethod = "kubectl" then
      installAddon p w release t =
        installAddonViaKubectl p w release
          (t ++ [Event.log ["Installing addon:", release.Name, "@", release.Version]]) ∧
      (emitted t (installAddon p w release t)).filter isUpgradeInstall = []
    else
      installAddon p w release t =
        installAddonViaHelm p w release
          (t ++ [Event.log ["Installing addon:", release.Name, "@", release.Version]]) ∧
      (emitted t (installAddon p w release t)).filter
        (fun e => isFetch e || isTemplate e || isApply e) = [] := by
  split
  · next h =>
    refine ⟨by simp [installAddon, h], ?_⟩
    exact (installAddon_emits_kubectl p w release t h).filter_nil _
      kubectlPathEvent_not_upgrade
  · next h =>
    refine ⟨by simp [installAddon, h], ?_⟩
    exact (installAddon_emits_helm p w release t h).filter_nil _
      helmPathEvent_not_kubectl

theorem setupKubeconfig_emits (p : Plugin) (w : World) (t : Trace) :
    Emits syncEvent t (setupKubeconfig p w t) := by
  unfold Emits setupKubeconfig
  by_cases hk : p.KubeConfig = "" <;> by_cases hc : p.KubeContext = ""
  · simp only [hk, hc, ne_eq, not_true_eq_false, if_false]
    exact ⟨[], by simp, by simp⟩
  · simp only [hk, hc, ne_eq, not_true_eq_false, not_false_eq_true, if_false, if_true, utilsRun]
    cases w.exec _ _ <;>
      exact ⟨_, (List.append_assoc _ _ _), by simp [syncEvent, execCommand, rawArg]⟩
  · simp only [hk, hc, ne_eq, not_true_eq_false, not_false_eq_true, if_false, if_true]
    cases w.write _ _ _ <;>
      exact ⟨_, (List.append_assoc _ _ _), by simp [syncEvent]⟩
  · simp only [hk, hc, ne_eq, not_true_eq_false, not_false_eq_true, if_false, if_true, utilsRun]
    cases w.write _ _ _
    · simp only []
      cases w.exec _ _ <;>
        (simp only [List.append_assoc]
         exact ⟨_, rfl, by simp [syncEvent, execCommand, rawArg]⟩)
    · exact ⟨_, (List.append_assoc _ _ _), by simp [syncEvent]⟩

theorem addHelmRepo_emits (w : World) (repo : HelmRepo) (t : Trace) :
    Emits syncEvent t (addHelmRepo w repo t) := by
  rw [addHelmRepo_eq]
  cases resolve repo.Username with
  | error e => exact Emits.append _ _ _ _ (by simp [syncEvent])
  | ok u =>
    cases resolve repo.Password with
    | error e => exact Emits.append _ _ _ _ (by simp [syncEvent])
    | ok pw =>
      exact Emits.append _ _ _ _ (by simp [syncEvent, repoAddCmd])

theorem updateHelmRepos_eq (w : World) (t : Trace) :
    updateHelmRepos w t =
      ((match w.exec (t ++ [Event.log ["Updating Helm repos"]]) (repoUpdateCmd w) with
        | .ok _ => none
        | .error e => some ("Error updating helm repos: " ++ e)),
       t ++ [Event.log ["Updating Helm repos"], Event.exec (repoUpdateCmd w)]) := by
  unfold updateHelmRepos
  simp only [utilsRun, execCommand, repoUpdateCmd, List.map]
  split <;> split <;> simp_all

theorem addRepos_emits (w : World) (repos : List HelmRepo) (t : Trace) :
    Emits syncEvent t (addRepos w repos t) := by
  induction repos generalizing t with
  | nil => exact Emits.refl _ _ _
  | cons repo rest ih =>
    unfold addRepos
    have h := addHelmRepo_emits w repo t
    split
    · next err t1 h1 => rw [h1] at h; exact h
    · next t1 h1 => rw [h1] at h; exact Emits.trans h (ih t1)

theorem addRepos_ok_iff (w : World) (repos : List HelmRepo) (t tEnd : Trace) :
    addRepos w repos t = (none, tEnd) ↔ AddedInOrder w repos t tEnd := by
  induction repos generalizing t with
  | nil => simp [addRepos, AddedInOrder, eq_comm]
  | cons repo rest ih =>
    unfold addRepos AddedInOrder
    split
    · next err t1 h1 => simp [h1]
    · next t1 h1 => simp [h1, ih]

theorem addRepos_fail (w : World) (pre : List HelmRepo) (repo : HelmRepo)
    (post : List HelmRepo) (t tb tc : Trace) (e : String)
    (hpre : AddedInOrder w pre t tb) (hfail : addHelmRepo w repo tb = (some e, tc)) :
    addRepos w (pre ++ repo :: post) t = (some ("Error adding Helm repo: " ++ e), tc) := by
  induction pre generalizing t with
  | nil =>
    simp only [AddedInOrder] at hpre
    subst hpre
    simp [addRepos, hfail]
  | cons r rest ih =>
    obtain ⟨t1, h1, h2⟩ := hpre
    simp only [List.cons_append, addRepos, h1]
    exact ih t1 h2

theorem installAddon_emits (p : Plugin) (w : World) (release : Release) (t : Trace) :
    Emits installEvent t (installAddon p w release t) := by
  by_cases h : release.DeploymentMethod = "kubectl"
  · exact (installAddon_emits_kubectl p w release t h).mono
      (fun e he => by simp [installEvent, he])
  · exact (installAddon_emits_helm p w release t h).mono
      (fun e he => by simp [installEvent, he])

theorem installAddons_emits (p : Plugin) (w : World) (rs : List Release) (t : Trace) :
    Emits installEvent t (installAddons p w rs t) := by
  induction rs generalizing t with
  | nil => exact Emits.refl _ _ _
  | cons r rest ih =>
    unfold installAddons
    have h := installAddon_emits p w r t
    split
    · next err t1 h1 => rw [h1] at h; exact h
    · next t1 h1 => rw [h1] at h; exact Emits.trans h (ih t1)

theorem installAddons_ok_iff (p : Plugin) (w : World) (rs : List Release) (t tEnd : Trace) :
    installAddons p w rs t = (none, tEnd) ↔ InstalledInOrder p w rs t tEnd := by
  induction rs generalizing t with
  | nil => simp [installAddons, InstalledInOrder, eq_comm]
  | cons r rest ih =>
    unfold installAddons InstalledInOrder
    split
    · next err t1 h1 => simp [h1]
    · next t1 h1 => simp [h1, ih]

theorem installAddons_fail (p : Plugin) (w : World) (pre : List Release) (addon : Release)
    (post : List Release) (t t2 t3 : Trace) (e : String)
    (hpre : InstalledInOrder p w pre t t2) (hfail : installAddon p w addon t2 = (some e, t3)) :
    installAddons p w (pre ++ addon :: post) t =
      (some ("Error installing addon \"" ++ addon.Name ++ "\": " ++ e), t3) := by
  induction pre generalizing t with
  | nil =>
    simp only [InstalledInOrder] at hpre
    subst hpre
    simp [installAddons, hfail]
  | cons r rest ih =>
    obtain ⟨t1, h1, h2⟩ := hpre
    simp only [List.cons_append, installAddons, h1]
    exact ih t1 h2

theorem take_one_of_take_two {α : Type} {l : List α} {a b : α} (h : l.take 2 = [a, b]) :
    l.take 1 = [a] := by
  have := congrArg (List.take 1) h
  simpa [List.take_take] using this

theorem syncEvent_not_update (e : Event) (h : syncEvent e = true) :
    isRepoUpdate e = false := by
  cases e with
  | exec cmd =>
    simp only [syncEvent, Bool.or_eq_true, beq_iff_eq] at h
    simp only [isRepoUpdate, beq_eq_false_iff_ne, ne_eq]
    intro h2
    rw [h2] at h
    revert h
    decide
  | _ => rfl

theorem syncEvent_not_install (e : Event) (h : syncEvent e = true) :
    isInstallExec e = false := by
  cases e with
  | exec cmd =>
    simp only [syncEvent, Bool.or_eq_true, beq_iff_eq] at h
    rcases h with h | h
    · have h1 := take_one_of_take_two h
      simp only [isInstallExec, isUpgradeInstall, isFetch, isTemplate, isApply, h, h1]
      decide
    · have h1 := take_one_of_take_two h
      simp only [isInstallExec, isUpgradeInstall, isFetch, isTemplate, isApply, h, h1]
      decide
  | _ => rfl

theorem installEvent_not_repo (e : Event) (h : installEvent e = true) :
    isRepoUpdate e = false ∧ isRepoAdd e = false := by
  cases e with
  | exec cmd =>
    have h1 : cmd.Args.take 1 = [rawArg "fetch"] ∨ cmd.Args.take 1 = [rawArg "template"] ∨
        cmd.Args.take 1 = [rawArg "apply"] ∨ cmd.Args.take 1 = [rawArg "upgrade"] := by
      simp only [installEvent, kubectlPathEvent, helmPathEvent, Bool.or_eq_true,
        beq_iff_eq] at h
      rcases h with (((h | h) | h) | h)
      · exact Or.inl h
      · exact Or.inr (Or.inl h)
      · exact Or.inr (Or.inr (Or.inl h))
      · exact Or.inr (Or.inr (Or.inr (take_one_of_take_two h)))
    constructor
    · simp only [isRepoUpdate, beq_eq_false_iff_ne, ne_eq]
      intro h2
      rw [h2] at h1
      revert h1
      decide
    · simp only [isRepoAdd, beq_eq_false_iff_ne, ne_eq]
      intro h2
      have h3 := take_one_of_take_two h2
      rw [h3] at h1
      revert h1
      decide
  | _ => exact ⟨rfl, rfl⟩

/-- C7 as stated fails: with no repository configured (so that no `repo add`
fails) `Exec` still returns without running `repo update` when the
Kubernetes context cannot be set. -/
theorem Exec_setup_failure_skips_update :
    ({ KubeContext := "prod" } : Plugin).ClusterConfig.Helm.Repos = [] ∧
    Exec { KubeContext := "prod" } failWorld [] =
      (some ("Error initializing Kubernetes config: " ++
          "Error setting Kubernetes context: exit status 1"),
       [Event.log ["Setting Kubernetes context"],
        Event.exec (execCommand "kubectl" ["config", "use-context", "prod"])]) ∧
    (emitted [] (Exec { KubeContext := "prod" } failWorld [])).filter isRepoUpdate = [] := by
  refine ⟨rfl, rfl, ?_⟩
  decide

/-- C7, amended: when the Kubernetes config setup succeeds: if the `repo add`
of some repository fails, `Exec` returns an error right there, so no later
repository is added, `repo update` is never run and no release is installed;
if every `repo add` succeeds (also for an empty list), `repo update` is run
exactly once, after the last add and before any release is installed. -/
theorem Exec_repo_sync (p : Plugin) (w : World) (t ta : Trace)
    (hs : setupKubeconfig p w t = (none, ta)) :
    (∀ pre repo post tb tc e, p.ClusterConfig.Helm.Repos = pre ++ repo :: post →
      AddedInOrder w pre ta tb → addHelmRepo w repo tb = (some e, tc) →
        Exec p w t = (some ("Error adding Helm repo: " ++ e), tc) ∧
        (emitted t (Exec p w t)).filter isRepoUpdate = [] ∧
        (emitted t (Exec p w t)).filter isInstallExec = []) ∧
    (∀ tb, AddedInOrder w p.ClusterConfig.Helm.Repos ta tb →
      (emitted t ((none : Err), tb)).filter isRepoUpdate = [] ∧
      (emitted t ((none : Err), tb)).filter isInstallExec = [] ∧
      (emitted t (Exec p w t)).filter isRepoUpdate = [Event.exec (repoUpdateCmd w)] ∧
      ∃ rest, (Exec p w t).2 =
          tb ++ [Event.log ["Updating Helm repos"], Event.exec (repoUpdateCmd w)] ++ rest ∧
        rest.filter isRepoUpdate = [] ∧ rest.filter isRepoAdd = []) := by
  have hsetup : Emits syncEvent t ((none : Err), ta) := by
    have := setupKubeconfig_emits p w t
    rwa [hs] at this
  constructor
  · intro pre repo post tb tc e hrepos hpre hfail
    have hadd := addRepos_fail w pre repo post ta tb tc e hpre hfail
    have hexec : Exec p w t = (some ("Error adding Helm repo: " ++ e), tc) := by
      unfold Exec
      simp only [hs, hrepos, hadd]
    have hem : Emits syncEvent t (Exec p w t) := by
      rw [hexec]
      have := addRepos_emits w (pre ++ repo :: post) ta
      rw [hadd] at this
      exact Emits.trans hsetup this
    exact ⟨hexec, hem.filter_nil _ syncEvent_not_update,
      hem.filter_nil _ syncEvent_not_install⟩
  · intro tb hall
    have hadd := (addRepos_ok_iff w _ ta tb).mpr hall
    have hem : Emits syncEvent t ((none : Err), tb) := by
      have := addRepos_emits w p.ClusterConfig.Helm.Repos ta
      rw [hadd] at this
      exact Emits.trans hsetup this
    have hrest : ∃ rest, (Exec p w t).2 =
          tb ++ [Event.log ["Updating Helm repos"], Event.exec (repoUpdateCmd w)] ++ rest ∧
        rest.filter isRepoUpdate = [] ∧ rest.filter isRepoAdd = [] := by
      unfold Exec
      simp only [hs, hadd, updateHelmRepos_eq]
      cases w.exec (tb ++ [Event.log ["Updating Helm repos"]]) (repoUpdateCmd w) with
      | error e => exact ⟨[], by simp, rfl, rfl⟩
      | ok out =>
        simp only []
        obtain ⟨new, hnew, hallnew⟩ := installAddons_emits p w p.ClusterConfig.Releases
          (tb ++ [Event.log ["Updating Helm repos"], Event.exec (repoUpdateCmd w)])
        refine ⟨new, hnew, ?_, ?_⟩
        · rw [List.filter_eq_nil_iff]
          intro x hx
          simp [(installEvent_not_repo x (hallnew x hx)).1]
        · rw [List.filter_eq_nil_iff]
          intro x hx
          simp [(installEvent_not_repo x (hallnew x hx)).2]
    refine ⟨hem.filter_nil _ syncEvent_not_update, hem.filter_nil _ syncEvent_not_install,
      ?_, hrest⟩
    obtain ⟨rest, h1, h2, -⟩ := hrest
    obtain ⟨new0, h0, hall0⟩ := hem
    have h0f : new0.filter isRepoUpdate = [] := by
      rw [List.filter_eq_nil_iff]
      intro x hx
      simp [syncEvent_not_update x (hall0 x hx)]
    simp only at h0
    unfold emitted
    rw [h1, h0]
    simp only [List.append_assoc, List.drop_left, List.filter_append, h0f, h2]
    simp [List.filter_cons, isRepoUpdate, repoUpdateCmd]

/-- Instance of C7 in `pickyWorld`: the second `repo add` fails and nothing
else runs; with only the first repository, `repo update` runs once. -/
theorem Exec_repo_sync_witness :
    ((Exec pickyPlugin pickyWorld []).1 =
        some "Error adding Helm repo: Could not add repo \"broken\": exit status 1" ∧
      (emitted [] (Exec pickyPlugin pickyWorld [])).filter isRepoUpdate = [] ∧
      (emitted [] (Exec pickyPlugin pickyWorld [])).filter isInstallExec = []) ∧
    (emitted [] (Exec syncedPlugin pickyWorld [])).filter isRepoUpdate =
      [Event.exec (repoUpdateCmd pickyWorld)] :=
  ⟨by
    have h := (Exec_repo_sync pickyPlugin pickyWorld [] [] rfl).1 [stableRepo] brokenRepo
      [extraRepo] (addHelmRepo pickyWorld stableRepo []).2
      (addHelmRepo pickyWorld brokenRepo (addHelmRepo pickyWorld stableRepo []).2).2
      "Could not add repo \"broken\": exit status 1" rfl ⟨_, rfl, rfl⟩ rfl
    exact ⟨by rw [h.1]; rfl, h.2.1, h.2.2⟩,
   ((Exec_repo_sync syncedPlugin pickyWorld [] [] rfl).2
      (addHelmRepo pickyWorld stableRepo []).2 ⟨_, rfl, rfl⟩).2.2.1⟩

/-- C8: releases are installed one at a time in the order of
`ClusterConfig.Releases`; if the installation of a release fails after all
earlier ones succeeded, `Exec` stops there (no event for any later release)
and returns `Error installing addon "<name>": <underlying error>`; `Exec`
returns success only if all earlier steps and every release's installation,
in order, returned success. -/
theorem Exec_fail_fast (p : Plugin) (w : World) (t : Trace) :
    (∀ t1 pre addon post t2 t3 e, Synced p w t t1 →
      p.ClusterConfig.Releases = pre ++ addon :: post →
      InstalledInOrder p w pre t1 t2 → installAddon p w addon t2 = (some e, t3) →
        Exec p w t =
          (some ("Error installing addon \"" ++ addon.Name ++ "\": " ++ e), t3)) ∧
    (∀ tEnd, Exec p w t = (none, tEnd) ↔
      ∃ t1, Synced p w t t1 ∧ InstalledInOrder p w p.ClusterConfig.Releases t1 tEnd) := by
  constructor
  · intro t1 pre addon post t2 t3 e hsync hrel hpre hfail
    obtain ⟨ta, tb, hs, hadd, hup⟩ := hsync
    have hadd2 := (addRepos_ok_iff w _ ta tb).mpr hadd
    unfold Exec
    simp only [hs, hadd2, hup, hrel]
    exact installAddons_fail p w pre addon post t1 t2 t3 e hpre hfail
  · intro tEnd
    constructor
    · intro h
      unfold Exec at h
      split at h
      · simp at h
      · next ta hs =>
        split at h
        · simp at h
        · next tb hadd =>
          split at h
          · simp at h
          · next t1 hup =>
            exact ⟨t1, ⟨ta, tb, hs, (addRepos_ok_iff w _ ta tb).mp hadd, hup⟩,
              (installAddons_ok_iff p w _ t1 tEnd).mp h⟩
    · rintro ⟨t1, ⟨ta, tb, hs, hadd, hup⟩, hinst⟩
      have hadd2 := (addRepos_ok_iff w _ ta tb).mpr hadd
      unfold Exec
      simp only [hs, hadd2, hup]
      exact (installAddons_ok_iff p w _ t1 tEnd).mpr hinst

/-- Instance of C8 in `pickyWorld`: the second of three releases fails. -/
theorem Exec_fail_fast_witness :
    Exec syncedPlugin pickyWorld [] =
      (some ("Error installing addon \"" ++ "broken" ++ "\": " ++
          "Error running helm: exit status 1"),
       (installAddon syncedPlugin pickyWorld brokenRelease
          (installAddon syncedPlugin pickyWorld dnsRelease
            (updateHelmRepos pickyWorld (addHelmRepo pickyWorld stableRepo []).2).2).2).2) :=
  (Exec_fail_fast syncedPlugin pickyWorld []).1
    (updateHelmRepos pickyWorld (addHelmRepo pickyWorld stableRepo []).2).2
    [dnsRelease] brokenRelease [lateRelease]
    (installAddon syncedPlugin pickyWorld dnsRelease
      (updateHelmRepos pickyWorld (addHelmRepo pickyWorld stableRepo []).2).2).2
    (installAddon syncedPlugin pickyWorld brokenRelease
      (installAddon syncedPlugin pickyWorld dnsRelease
        (updateHelmRepos pickyWorld (addHelmRepo pickyWorld stableRepo []).2).2).2).2
    "Error running helm: exit status 1"
    ⟨[], (addHelmRepo pickyWorld stableRepo []).2, rfl, ⟨_, rfl, rfl⟩, rfl⟩
    rfl ⟨_, rfl, rfl⟩ rfl

end Impeller
